import Mathlib

/-!
Shallow embedding of `src/kern/vm/addrspace.c`: the hashed page table (HPT)
and the address-space lifecycle operations built on it.

The global table `hpt` (an array of `hpt_size` bucket heads, each a singly
linked chain of `struct hpt_entry`) is modelled as a `List` of buckets, each
bucket a `List` of entries in chain order; `hpt_size` is the length of that
list.  A C pointer walking a chain is modelled as a position index into the
bucket's list: appends happen only at the tail, so positions of existing
nodes are stable, exactly as node addresses are in C.

Machine integers are `Nat` with an explicit `% 2 ^ 32` where the C code can
overflow.  Allocators are oracles: `kmalloc` outcomes are a `Nat → Bool`
stream (indexed by call count) and `alloc_kpages` outcomes a `Nat → Nat`
stream (`0` means allocation failure, as in the source).  A C execution that
dereferences a null pointer is modelled as `Option.none` ("crash"); a loop
that the source runs unboundedly is given explicit fuel, and `none` from
fuel exhaustion at every fuel witnesses divergence.

Page contents (the `memmove` in `as_copy`) and the TLB/spinlock/interrupt
calls are not modelled: no claim settled here depends on byte contents of
frames or on hardware state, only on table state and on the calls made.
-/

/-- Modelled from the spec: the constants of the missing headers
(`addrspace.h`, `vm.h`, `kern/errno.h` are not under `src/`).  Page size is
4096 bytes with 12 page bits (spec section on the round trip), the kernel
reserved boundary is `MIPS_KSEG0 = 0x80000000`, and `entry_lo` holds the
frame in the top 20 bits plus state bits {valid, dirty, global,
temporary-write-override} and a permission field in the low bits (spec
"DATA MODEL").  Bit positions follow the MIPS entry-lo layout: dirty 10,
valid 9, global 8; the temporary-write-override (`SWRITE`) mask is bit 0 and
the shifted permission flags occupy bits 1..3 (`(readable|writeable|executable) << 1`
with read 4, write 2, execute 1), so `HPTABLE_WRITE = 2 <<< 1 = 4` and
`HPTABLE_STATEBITS = 0xF` covers the override bit and the permission field. -/
def PAGE_BITS : Nat := 12

def PAGE_SIZE : Nat := 4096

def PAGE_FRAME : Nat := 0xfffff000

def MIPS_KSEG0 : Nat := 0x80000000

def FLAG_OFFSET : Nat := 12

def HPTABLE_DIRTY : Nat := 10

def HPTABLE_VALID : Nat := 9

def HPTABLE_GLOBAL : Nat := 8

def HPTABLE_SWRITE : Nat := 1

def HPTABLE_STATEBITS : Nat := 0xF

def HPTABLE_WRITE : Nat := 4

/-- `~HPTABLE_SWRITE` as a 32-bit mask (C complement of `1`). -/
def NOT_SWRITE : Nat := 0xFFFFFFFE

/-- `~(1 << HPTABLE_DIRTY)` as a 32-bit mask. -/
def NOT_DIRTY : Nat := 0xFFFFFBFF

/-- Modelled from the spec: `kern/errno.h` is not under `src/`; the spec
names the two error kinds `OutOfMemory` (`ENOMEM`) and `InvalidRange`
(`EFAULT`), distinct nonzero codes. -/
def ENOMEM : Nat := 3

def EFAULT : Nat := 6

def U32 : Nat := 2 ^ 32

/-- `struct hpt_entry`: `pid` is the owning address space's identity (the C
code casts the `struct addrspace *` to `uint32_t`), `entry_hi` the stored
virtual tag, `entry_lo` the frame and state bits.  The `next` link is
represented by list order inside a bucket. -/
structure hpt_entry where
  pid : Nat
  entry_hi : Nat
  entry_lo : Nat
deriving Repr, DecidableEq

/-- The global `hpt`: `hpt_size` buckets, each a chain in link order. -/
abbrev Table := List (List hpt_entry)

/-- `hpt_hash`: `(((uint32_t)as) ^ (vpn >> PAGE_BITS)) % hpt_size`. -/
def hpt_hash (pid vpn size : Nat) : Nat :=
  (Nat.xor pid (vpn >>> PAGE_BITS)) % size

/-- `find`: walk the hashed bucket's chain, return the first entry with
matching `pid` whose `entry_hi & PAGE_FRAME` equals `vpn`, else none. -/
def find (t : Table) (pid vpn : Nat) : Option hpt_entry :=
  (t.getD (hpt_hash pid vpn t.length) []).find?
    (fun e => e.pid == pid && vpn == Nat.land e.entry_hi PAGE_FRAME)

/-- `insert_page_table_entry`: allocates a node (`kmallocOk` is this call's
`kmalloc` outcome), fills `pid`, `entry_hi & PAGE_FRAME`, `entry_lo`, and
links it at the tail of the hashed bucket (the C code's empty-bucket branch
and walk-to-tail branch both amount to a tail append).  The C code never
checks `kmalloc`'s result: on allocation failure, `new->pid = ...` writes
through a null pointer, modelled as `none` (crash); on the non-crash path
the function always returns `true`. -/
def insert_page_table_entry (kmallocOk : Bool) (t : Table)
    (pid entry_hi entry_lo : Nat) : Option (Table × Bool) :=
  let vpn := Nat.land entry_hi PAGE_FRAME
  let index := hpt_hash pid vpn t.length
  if kmallocOk then
    let new : hpt_entry := ⟨pid, vpn, entry_lo⟩
    some (t.set index (t.getD index [] ++ [new]), true)
  else
    none

/-- The `entry_lo` built by `define_memory` for one page: `paddr` is the
constant `0`, valid and global are set, dirty is set iff the (already
shifted) permissions contain the write bit, then the permissions and the
`SWRITE` override bit are or-ed in. -/
def make_entry_lo (permissions : Nat) : Nat :=
  let lo0 := Nat.lor (Nat.land 0 PAGE_FRAME)
      (Nat.lor (1 <<< HPTABLE_VALID) (1 <<< HPTABLE_GLOBAL))
  let lo1 := if Nat.land permissions HPTABLE_WRITE ≠ 0 then
      Nat.lor lo0 (1 <<< HPTABLE_DIRTY)
    else
      Nat.land lo0 NOT_DIRTY
  Nat.lor (Nat.lor lo1 permissions) HPTABLE_SWRITE

/-- The `for (start = base; start < top; start++)` body of `define_memory`:
one insertion per page, `k` counts `kmalloc` calls into the oracle `km`.
The `return ENOMEM` branch mirrors the source's check of the insert result
(dead in practice, since `insert_page_table_entry` can only return `true`). -/
def define_loop (km : Nat → Bool) (pid permissions : Nat) :
    List Nat → Nat → Table → Option (Nat × Table)
  | [], _, t => some (0, t)
  | start :: rest, k, t =>
    let entry_hi := (start <<< FLAG_OFFSET) % U32
    let entry_lo := make_entry_lo permissions
    match insert_page_table_entry (km k) t pid entry_hi entry_lo with
    | none => none
    | some (t', ok) =>
      if ok then define_loop km pid permissions rest (k + 1) t'
      else some (ENOMEM, t')

/-- `define_memory`: rejects ranges reaching into the kernel's reserved
region with `EFAULT` (the `addr + memsize` sum is a 32-bit addition), then
inserts one entry per page of `[addr/PAGE_SIZE, ceil((addr+memsize)/PAGE_SIZE))`. -/
def define_memory (km : Nat → Bool) (t : Table)
    (pid addr memsize permissions : Nat) : Option (Nat × Table) :=
  if (addr + memsize) % U32 > MIPS_KSEG0 then
    some (EFAULT, t)
  else
    let top := ((addr + memsize + PAGE_SIZE - 1) % U32) / PAGE_SIZE
    let base := addr / PAGE_SIZE
    define_loop km pid permissions (List.range' base (top - base)) 0 t

/-- `as_define_region`: shifts the or-ed permission flags left by one and
calls `define_memory`; any nonzero result (including `define_memory`'s
`EFAULT`) is returned as `ENOMEM`. -/
def as_define_region (km : Nat → Bool) (t : Table)
    (pid vaddr memsize readable writeable executable : Nat) :
    Option (Nat × Table) :=
  match define_memory km t pid vaddr memsize
      ((Nat.lor (Nat.lor readable writeable) executable) <<< 1) with
  | none => none
  | some (r, t') => if r ≠ 0 then some (ENOMEM, t') else some (0, t')

/-- One bucket's walk in `as_destroy`: unlink every entry whose `pid`
matches, calling `free_kpages(entry_lo & PAGE_FRAME)` on each (the freed
values are collected in call order); non-matching entries stay linked in
order. -/
def destroy_chain (pid : Nat) : List hpt_entry → List hpt_entry × List Nat
  | [] => ([], [])
  | e :: rest =>
    let r := destroy_chain pid rest
    if e.pid ≠ pid then (e :: r.1, r.2)
    else (r.1, Nat.land e.entry_lo PAGE_FRAME :: r.2)

/-- `as_destroy`: walk every bucket, unlink and free every entry of `pid`,
releasing each entry's frame value via `free_kpages` (second component:
the arguments passed to `free_kpages`, in call order).  The `kfree`s of the
node metadata and the handle, and the TLB flush, touch no table state. -/
def as_destroy (pid : Nat) : Table → Table × List Nat
  | [] => ([], [])
  | b :: bs =>
    let r := destroy_chain pid b
    let rs := as_destroy pid bs
    (r.1 :: rs.1, r.2 ++ rs.2)

/-- `as_complete_load`: for every entry of `pid`, `entry_lo &= ~HPTABLE_SWRITE`;
every other entry is untouched.  (The trailing TLB flush is hardware state.) -/
def as_complete_load (t : Table) (pid : Nat) : Table :=
  t.map (List.map (fun e =>
    if e.pid = pid then ⟨e.pid, e.entry_hi, Nat.land e.entry_lo NOT_SWRITE⟩
    else e))

/-- The state-bit mask `as_copy` applies to the copied `entry_lo`:
`(lo & HPTABLE_STATEBITS) | (lo & (1<<DIRTY)) | (lo & (1<<VALID)) | (lo & (1<<GLOBAL))`. -/
def copy_state_lo (lo : Nat) : Nat :=
  Nat.lor
    (Nat.lor (Nat.land lo HPTABLE_STATEBITS)
      (Nat.land lo (1 <<< HPTABLE_DIRTY)))
    (Nat.lor (Nat.land lo (1 <<< HPTABLE_VALID))
      (Nat.land lo (1 <<< HPTABLE_GLOBAL)))

/-- Early exits of `as_copy`. -/
inductive CopyErr where
  /-- `as_create` returned `NULL`: `as_copy` returns `ENOMEM` untouched. -/
  | createFail : CopyErr
  /-- Null-pointer dereference inside `insert_page_table_entry`. -/
  | crash : CopyErr
  /-- `alloc_kpages` returned `0` mid-copy: `as_copy` returns `ENOMEM`
  with the table in the given state — no cleanup of the destination. -/
  | enomem : Table → CopyErr
  /-- The (dead) insert-failure branch: `as_destroy(newas)` then `ENOMEM`. -/
  | enomemDestroyed : Table → CopyErr
deriving Repr, DecidableEq

instance {ε α : Type} [DecidableEq ε] [DecidableEq α] :
    DecidableEq (Except ε α) := fun a b =>
  match a, b with
  | Except.ok x, Except.ok y =>
    if h : x = y then isTrue (by rw [h])
    else isFalse (by intro hc; cases hc; exact h rfl)
  | Except.error x, Except.error y =>
    if h : x = y then isTrue (by rw [h])
    else isFalse (by intro hc; cases hc; exact h rfl)
  | Except.ok _, Except.error _ => isFalse (by intro hc; cases hc)
  | Except.error _, Except.ok _ => isFalse (by intro hc; cases hc)

/-- The `while (ptr != NULL)` loop of `as_copy` over bucket `i`, with `ptr`
modelled as position `k` in the bucket (appends only occur at the tail, so
positions of existing nodes are stable).  `fc`/`kc` count `alloc_kpages` /
`kmalloc` calls into the oracles.  Mirrors the source exactly: a
non-matching entry advances `k`; a matching entry allocates a fresh frame
when it has one (`entry_lo & PAGE_FRAME != 0`), or-s the copied state bits,
inserts the copy for `newPid` — and then loops WITHOUT advancing `k`, as in
the source (there is no `ptr = ptr->next` on this path).  `none` means the
fuel ran out, i.e. the loop has not finished within `fuel` steps.  The
`memmove` of page contents is not modelled (no claim here depends on it). -/
def copy_chain (frames : Nat → Nat) (km : Nat → Bool) (pid newPid i : Nat) :
    Nat → Nat → Table → Nat → Nat →
    Option (Except CopyErr (Table × Nat × Nat))
  | 0, _, _, _, _ => none
  | fuel + 1, k, t, fc, kc =>
    match (t.getD i []).get? k with
    | none => some (Except.ok (t, fc, kc))
    | some e =>
      if e.pid ≠ pid then copy_chain frames km pid newPid i fuel (k + 1) t fc kc
      else
        let old_lo := Nat.land e.entry_lo PAGE_FRAME
        let alloc : Option (Nat × Nat) :=
          if old_lo ≠ 0 then
            if frames fc = 0 then none else some (frames fc, fc + 1)
          else some (old_lo, fc)
        match alloc with
        | none => some (Except.error (CopyErr.enomem t))
        | some (base, fc') =>
          let new_lo := Nat.lor base (copy_state_lo e.entry_lo)
          match insert_page_table_entry (km kc) t newPid e.entry_hi new_lo with
          | none => some (Except.error CopyErr.crash)
          | some (t', ok) =>
            if ok then copy_chain frames km pid newPid i fuel k t' fc' (kc + 1)
            else some (Except.error
              (CopyErr.enomemDestroyed (as_destroy newPid t').1))

/-- The `for (i = 0; i < hpt_size; i++)` loop of `as_copy`; `rem` is the
number of buckets left (`hpt_size - i`). -/
def copy_buckets (frames : Nat → Nat) (km : Nat → Bool)
    (pid newPid fuel : Nat) :
    Nat → Nat → Table → Nat → Nat → Option (Except CopyErr Table)
  | 0, _, t, _, _ => some (Except.ok t)
  | rem + 1, i, t, fc, kc =>
    match copy_chain frames km pid newPid i fuel 0 t fc kc with
    | none => none
    | some (Except.error e) => some (Except.error e)
    | some (Except.ok (t', fc', kc')) =>
      copy_buckets frames km pid newPid fuel rem (i + 1) t' fc' kc'

/-- `as_copy`: `as_create` the destination handle (`handleOk` is that
`kmalloc`'s outcome; on failure `ENOMEM` is returned with the table
untouched), then scan every bucket copying the source's entries to
`newPid`.  `Except.ok t'` is the success path (`*ret = newas; return 0`). -/
def as_copy (handleOk : Bool) (frames : Nat → Nat) (km : Nat → Bool)
    (pid newPid fuel : Nat) (t : Table) : Option (Except CopyErr Table) :=
  if handleOk then copy_buckets frames km pid newPid fuel t.length 0 t 0 0
  else some (Except.error CopyErr.createFail)

/-- The entries owned by `pid`, in bucket-then-chain order. -/
def ownedEntries (t : Table) (pid : Nat) : List hpt_entry :=
  (t.map (fun b => b.filter (fun e => e.pid == pid))).flatten

/-- Number of live entries owned by `pid`. -/
def countPid (t : Table) (pid : Nat) : Nat :=
  (ownedEntries t pid).length

/-- Number of live entries with owner `pid` and stored virtual tag `v`. -/
def countKey (t : Table) (pid v : Nat) : Nat :=
  (t.map (fun b => b.countP (fun e => e.pid == pid && e.entry_hi == v))).sum

/-- The stored virtual tags of the pages a `define_memory(addr, memsize)`
call inserts: one per page of `[addr/PAGE_SIZE, ceil((addr+memsize)/PAGE_SIZE))`,
each tag being `(start << FLAG_OFFSET) & PAGE_FRAME` as a 32-bit value. -/
def pageTags (addr memsize : Nat) : List Nat :=
  (List.range' (addr / PAGE_SIZE)
      (((addr + memsize + PAGE_SIZE - 1) % U32) / PAGE_SIZE - addr / PAGE_SIZE)).map
    (fun s => Nat.land ((s <<< FLAG_OFFSET) % U32) PAGE_FRAME)

/-! Concrete fixtures used by the concrete theorems below.  All tables are
reachable: `tbl_one_frameless` is produced by a single region definition on
an empty two-bucket table (proved below), and the four-bucket tables arise
the same way from `empty4`. -/

/-- A `kmalloc` oracle where every allocation succeeds. -/
def km_all : Nat → Bool := fun _ => true

/-- An `alloc_kpages` oracle where every allocation succeeds (returns 1). -/
def frames_unit : Nat → Nat := fun _ => 1

/-- An `alloc_kpages` oracle whose first allocation succeeds and whose
second fails. -/
def frames_one : Nat → Nat := fun fc => if fc = 0 then 0x7000 else 0

/-- An empty table with two buckets. -/
def empty2 : Table := [[], []]

/-- An empty table with four buckets. -/
def empty4 : Table := [[], [], [], []]

/-- A table holding one entry of address space `5`, tag `0x1000`, with no
frame assigned (`entry_lo = 0x309`: valid, global, read permission, SWRITE). -/
def tbl_one_frameless : Table := [[⟨5, 0x1000, 0x309⟩], []]

/-- A table holding one entry of address space `5`, tag `0x1000`, with
frame `0x2000` assigned (`entry_lo = 0x2309`). -/
def tbl_one_framed : Table := [[⟨5, 0x1000, 0x2309⟩], []]

/-- `tbl_one_framed` after `as_copy`'s first iteration: the copied entry for
the destination space `7` (fresh frame `0x7000`, same state bits) has been
appended to bucket 0. -/
def tbl_leaked : Table := [[⟨5, 0x1000, 0x2309⟩, ⟨7, 0x1000, 0x7309⟩], []]

/-- The table produced by `define_region(5, 0x1000, 8192, RW)` on `empty4`:
two entries, tags `0x1000` (bucket 0) and `0x2000` (bucket 3), both with
`entry_lo = 0x70D` (dirty, valid, global, permissions `RW` shifted, SWRITE). -/
def tbl_round_trip : Table :=
  [[⟨5, 0x1000, 0x70D⟩], [], [], [⟨5, 0x2000, 0x70D⟩]]

/-- The table produced by `define_region(5, 0x1000, 0x1000, R)` on `empty4`. -/
def tbl_one_region : Table := [[⟨5, 0x1000, 0x309⟩], [], [], []]

/-- `tbl_one_region` after the same region is defined a second time: two
live entries with the same owner and the same virtual tag. -/
def tbl_two_regions : Table :=
  [[⟨5, 0x1000, 0x309⟩, ⟨5, 0x1000, 0x309⟩], [], [], []]

/-- A table holding one entry of space `5`, tag `0x1000`, state `11`. -/
def tbl_state_a : Table := [[⟨5, 0x1000, 11⟩], [], [], []]

/-- `tbl_state_a` after `insert(5, 0x1000, 22)`: the new entry sits behind
the old one in the chain. -/
def tbl_state_ab : Table := [[⟨5, 0x1000, 11⟩, ⟨5, 0x1000, 22⟩], [], [], []]

/-- The table mutations the subsystem performs, as they act on the shared
table: insertion (region definition and the copy loop only ever insert),
load-phase completion (clears SWRITE on one space's entries), and
destruction (unlinks one space's entries).  `find` itself never mutates. -/
inductive TableOp where
  | opInsert (pid entry_hi entry_lo : Nat) : TableOp
  | opCompleteLoad (pid : Nat) : TableOp
  | opDestroy (pid : Nat) : TableOp

/-- Apply one table operation (metadata allocations succeeding). -/
def apply_op (t : Table) : TableOp → Table
  | TableOp.opInsert p hi lo =>
    match insert_page_table_entry true t p hi lo with
    | some (t', _) => t'
    | none => t
  | TableOp.opCompleteLoad p => as_complete_load t p
  | TableOp.opDestroy p => (as_destroy p t).1

/-- The operations that neither remove nor mutate any entry owned by `pid`:
every insertion (it only appends new nodes), and load-completion or
destruction of a DIFFERENT address space.  `as_destroy pid` removes the
entry and `as_complete_load pid` mutates its state; these are exactly the
excluded cases. -/
def leaves_owner (pid : Nat) : TableOp → Prop
  | TableOp.opInsert _ _ _ => True
  | TableOp.opCompleteLoad q => q ≠ pid
  | TableOp.opDestroy q => q ≠ pid

/-! ### Helper lemmas -/

/-- A successful insertion returns `true` and appends the new node at the
tail of the hashed bucket. -/
lemma insert_eq_append (t : Table) (pid entry_hi entry_lo : Nat) :
    insert_page_table_entry true t pid entry_hi entry_lo =
      some (t.set (hpt_hash pid (Nat.land entry_hi PAGE_FRAME) t.length)
              (t.getD (hpt_hash pid (Nat.land entry_hi PAGE_FRAME) t.length) []
                ++ [⟨pid, Nat.land entry_hi PAGE_FRAME, entry_lo⟩]),
            true) := rfl

/-- Appending at the tail of any bucket never moves the head of bucket 0:
the first node of bucket 0 is the same before and after. -/
lemma head_after_tail_append (t : Table) (i : Nat) (x e0 : hpt_entry)
    (h0 : (t.getD 0 []).get? 0 = some e0) :
    ((t.set i (t.getD i [] ++ [x])).getD 0 []).get? 0 = some e0 := by
  by_cases hiz : i = 0
  · subst hiz
    simp only [List.getD_eq_getElem?_getD, List.get?_eq_getElem?] at h0 ⊢
    rcases Nat.lt_or_ge 0 t.length with hlen | hlen
    · rw [List.getElem?_set_self hlen]
      cases ht : t[0]? with
      | none => simp [ht] at h0
      | some b =>
        simp only [ht, Option.getD_some] at h0 ⊢
        rw [List.getElem?_append_left]
        · exact h0
        · cases b with
          | nil => simp at h0
          | cons y ys => simp
    · rw [List.set_eq_of_length_le (by simpa using hlen)]
      exact h0
  · simp only [List.getD_eq_getElem?_getD, List.get?_eq_getElem?] at h0 ⊢
    rw [List.getElem?_set_ne hiz]
    exact h0

/-- The heart of the `as_copy` defect: the inner `while` loop of `as_copy`
never executes `ptr = ptr->next` after copying a matching entry, so once the
walk reaches an entry of the source space it stays on that node forever.
If the first node of bucket 0 belongs to the source and allocations always
succeed, the loop makes no progress at any fuel. -/
lemma copy_chain_stuck (frames : Nat → Nat) (km : Nat → Bool)
    (hkm : ∀ n, km n = true) (hf : ∀ n, frames n ≠ 0)
    (pid newPid : Nat) (e0 : hpt_entry) (hpid : e0.pid = pid) :
    ∀ fuel t fc kc, (t.getD 0 []).get? 0 = some e0 →
      copy_chain frames km pid newPid 0 fuel 0 t fc kc = none := by
  intro fuel
  induction fuel with
  | zero => intro t fc kc h0; rfl
  | succ n ih =>
    intro t fc kc h0
    rw [copy_chain, h0]
    simp only [hpid, ne_eq, not_true_eq_false, if_false, ite_false]
    by_cases hol : Nat.land e0.entry_lo PAGE_FRAME = 0
    · simp only [hol, not_true_eq_false, if_false, ite_false, hkm kc,
        insert_eq_append, if_true, ite_true]
      exact ih _ _ _ (head_after_tail_append t _ _ e0 h0)
    · simp only [hol, not_false_eq_true, if_true, ite_true, hf fc,
        if_false, ite_false, hkm kc, insert_eq_append]
      exact ih _ _ _ (head_after_tail_append t _ _ e0 h0)

/-! ### Claim theorems -/

/-- C1: REFUTED by the code (code bug).  `duplicate(A)` is claimed to yield
a faithful copy `B` of `A`.  But for any source owning at least one entry,
`as_copy`'s inner loop never advances past the source's entry (there is no
`ptr = ptr->next` after a successful copy), so with every allocation
succeeding the copy loop runs forever and never yields any `B`: at every
fuel, `as_copy` on a one-entry source (frame assigned) is still running. -/
theorem as_copy_never_yields_duplicate (frames : Nat → Nat)
    (hf : ∀ n, frames n ≠ 0) :
    ∀ fuel, as_copy true frames km_all 5 7 fuel tbl_one_framed = none := by
  intro fuel
  have hc := copy_chain_stuck frames km_all (fun n => rfl) hf 5 7
    ⟨5, 0x1000, 0x2309⟩ rfl fuel tbl_one_framed 0 0 rfl
  have hstep : as_copy true frames km_all 5 7 fuel tbl_one_framed =
      copy_buckets frames km_all 5 7 fuel 2 0 tbl_one_framed 0 0 := rfl
  rw [hstep, show (2 : Nat) = 1 + 1 from rfl, copy_buckets, hc]

/-- Witness for C1's theorem at the all-succeeding frame oracle and fuel 9. -/
theorem as_copy_never_yields_duplicate_witness :
    (∀ n : Nat, frames_unit n ≠ 0) ∧
    as_copy true frames_unit km_all 5 7 9 tbl_one_framed = none :=
  ⟨fun n => by simp [frames_unit],
   as_copy_never_yields_duplicate frames_unit (fun n => by simp [frames_unit]) 9⟩

/-- C2: REFUTED by the code (code bug).  The claim says every operation
either completes or returns an explicit error, and in particular that
`duplicate(A)` terminates whenever `A` owns at least one entry.  On a
reachable table (produced here by a single region definition on an empty
two-bucket table) holding exactly one entry of the source, `as_copy` makes
no progress at any fuel: it neither completes nor returns an error. -/
theorem as_copy_does_not_terminate :
    as_define_region km_all empty2 5 0x1000 0x1000 4 0 0 =
      some (0, tbl_one_frameless) ∧
    ∀ fuel, as_copy true frames_unit km_all 5 7 fuel tbl_one_frameless = none := by
  refine ⟨by decide, fun fuel => ?_⟩
  have hc := copy_chain_stuck frames_unit km_all (fun n => rfl)
    (fun n => by simp [frames_unit]) 5 7
    ⟨5, 0x1000, 0x309⟩ rfl fuel tbl_one_frameless 0 0 rfl
  have hstep : as_copy true frames_unit km_all 5 7 fuel tbl_one_frameless =
      copy_buckets frames_unit km_all 5 7 fuel 2 0 tbl_one_frameless 0 0 := rfl
  rw [hstep, show (2 : Nat) = 1 + 1 from rfl, copy_buckets, hc]

/-- C4: REFUTED by the code (code bug).  When a frame allocation fails
mid-copy, `as_copy` returns `ENOMEM` immediately — it does NOT destroy the
partially built destination (the `as_destroy(newas)` cleanup exists only on
the unreachable insert-failure branch).  Concretely: source `5` owns one
framed entry; the first frame allocation succeeds and the copy is inserted
for destination `7`; the second allocation fails; `as_copy` returns the
`ENOMEM` exit with the destination's entry still live in the table
(`countPid _ 7 = 1`), while the source's entries are untouched. -/
theorem as_copy_enomem_leaves_partial_destination :
    as_copy true frames_one km_all 5 7 20 tbl_one_framed =
      some (Except.error (CopyErr.enomem tbl_leaked)) ∧
    countPid tbl_leaked 7 = 1 ∧
    ownedEntries tbl_leaked 5 = [⟨5, 0x1000, 0x2309⟩] ∧
    ownedEntries tbl_one_framed 5 = [⟨5, 0x1000, 0x2309⟩] := by decide

/-- C5: REFUTED by the code (code bug).  The claim says `insert` returns
`OutOfMemory` exactly when the metadata allocation fails.  The source never
checks `kmalloc`'s result: when the allocation fails it writes through the
null pointer (`new->pid = ...`), a crash — modelled as `none` — and the
function cannot return a failure on any path (its only `return`s yield
`true`). -/
theorem insert_crashes_on_alloc_failure (t : Table)
    (pid entry_hi entry_lo : Nat) :
    insert_page_table_entry false t pid entry_hi entry_lo = none := rfl

/-- C3 counterexample: `as_define_region` on a range crossing `MIPS_KSEG0`
returns `ENOMEM` — the `OutOfMemory` code, not a distinct `InvalidRange`
error: `as_define_region` maps every nonzero `define_memory` result
(including its `EFAULT`) to `ENOMEM`.  No entries are inserted. -/
theorem define_region_boundary_returns_enomem_cex :
    as_define_region km_all empty4 5 0x80000000 1 4 2 0 =
      some (ENOMEM, empty4) ∧ ENOMEM ≠ EFAULT := by decide

/-- C3 amended: if `base + size` (computed as the 32-bit sum, as in the C)
exceeds `MIPS_KSEG0`, the region is rejected with no entries inserted — the
internal `define_memory` returns `EFAULT` (`InvalidRange`) with the table
unchanged, but the exposed `as_define_region` collapses that to `ENOMEM`. -/
theorem define_region_boundary_rejected (km : Nat → Bool) (t : Table)
    (pid addr memsize r w x : Nat)
    (h : (addr + memsize) % U32 > MIPS_KSEG0) :
    define_memory km t pid addr memsize
        ((Nat.lor (Nat.lor r w) x) <<< 1) = some (EFAULT, t) ∧
    as_define_region km t pid addr memsize r w x = some (ENOMEM, t) := by
  constructor
  · rw [define_memory, if_pos h]
  · rw [as_define_region, define_memory, if_pos h]
    norm_num [EFAULT]

/-- Witness for C3's amended theorem at `base = 0x80000000`, `size = 1`. -/
theorem define_region_boundary_rejected_witness :
    ((0x80000000 + 1) % U32 > MIPS_KSEG0) ∧
    (define_memory km_all empty4 5 0x80000000 1
        ((Nat.lor (Nat.lor 4 2) 0) <<< 1) = some (EFAULT, empty4) ∧
     as_define_region km_all empty4 5 0x80000000 1 4 2 0 =
        some (ENOMEM, empty4)) :=
  ⟨by decide,
   define_region_boundary_rejected km_all empty4 5 0x80000000 1 4 2 0 (by decide)⟩

/-- C6: CONFIRMED.  `define_region(5, base 0x1000, size 8192, RW)` on an
empty (four-bucket) table succeeds and creates exactly 2 entries owned by
`5`, with page-aligned tags `0x1000` and `0x2000`, both with
`entry_lo = 0x70D`: dirty (bit 10), valid (bit 9), global (bit 8), the
write-permission bit (`HPTABLE_WRITE = 4`) and the temporary-write-override
bit (`HPTABLE_SWRITE = 1`) all set; `destroy(5)` afterwards leaves the
table with no entries owned by `5`. -/
theorem define_region_round_trip :
    as_define_region km_all empty4 5 0x1000 8192 4 2 0 =
      some (0, tbl_round_trip) ∧
    ownedEntries tbl_round_trip 5 =
      [⟨5, 0x1000, 0x70D⟩, ⟨5, 0x2000, 0x70D⟩] ∧
    countPid tbl_round_trip 5 = 2 ∧
    Nat.testBit 0x70D HPTABLE_DIRTY = true ∧
    Nat.testBit 0x70D HPTABLE_VALID = true ∧
    Nat.testBit 0x70D HPTABLE_GLOBAL = true ∧
    Nat.land 0x70D HPTABLE_WRITE ≠ 0 ∧
    Nat.land 0x70D HPTABLE_SWRITE ≠ 0 ∧
    0x1000 % PAGE_SIZE = 0 ∧ 0x2000 % PAGE_SIZE = 0 ∧
    countPid (as_destroy 5 tbl_round_trip).1 5 = 0 := by decide

/-- C7 counterexample: defining the same one-page region twice for the same
address space produces TWO live entries with owner `5` and virtual tag
`0x1000` — `insert_page_table_entry` appends unconditionally, it never
checks for an existing key. -/
theorem repeated_region_duplicates_key_cex :
    as_define_region km_all empty4 5 0x1000 0x1000 4 0 0 =
      some (0, tbl_one_region) ∧
    as_define_region km_all tbl_one_region 5 0x1000 0x1000 4 0 0 =
      some (0, tbl_two_regions) ∧
    countKey tbl_two_regions 5 0x1000 = 2 := by decide

/-- C8 counterexample: on a table already holding a live `(5, 0x1000)`
entry with state `11`, `insert(5, 0x1000, 22)` succeeds, but `find` then
returns the OLD entry (state `11`), not the newly inserted state `22`:
insertion appends at the tail while lookup returns the first match in the
chain. -/
theorem lookup_shadowed_after_insert_cex :
    insert_page_table_entry true tbl_state_a 5 0x1000 22 =
      some (tbl_state_ab, true) ∧
    find tbl_state_ab 5 0x1000 = some ⟨5, 0x1000, 11⟩ ∧
    (⟨5, 0x1000, 11⟩ : hpt_entry) ≠ ⟨5, 0x1000, 22⟩ := by decide

/-- The freed-frame list of one bucket's walk: exactly one `free_kpages`
argument per matching entry, in chain order, each being that entry's
`entry_lo & PAGE_FRAME`. -/
lemma destroy_chain_freed (pid : Nat) (b : List hpt_entry) :
    (destroy_chain pid b).2 =
      (b.filter (fun e => e.pid == pid)).map
        (fun e => Nat.land e.entry_lo PAGE_FRAME) := by
  induction b with
  | nil => rfl
  | cons e rest ih =>
    by_cases h : e.pid = pid
    · simp [destroy_chain, h, List.filter_cons, ih]
    · simp [destroy_chain, h, List.filter_cons, ih]

/-- C10: CONFIRMED.  `as_destroy(A)` passes to `free_kpages` exactly one
value per entry owned by `A`, namely that entry's `entry_lo & PAGE_FRAME`,
in traversal order — so an entry whose frame was never assigned contributes
the unassigned value `0`.  The number of `free_kpages` calls equals the
number of entries owned by `A`. -/
theorem destroy_frees_every_owned_frame (pid : Nat) (t : Table) :
    (as_destroy pid t).2 =
      (ownedEntries t pid).map (fun e => Nat.land e.entry_lo PAGE_FRAME) ∧
    (as_destroy pid t).2.length = countPid t pid := by
  have hmain : (as_destroy pid t).2 =
      (ownedEntries t pid).map (fun e => Nat.land e.entry_lo PAGE_FRAME) := by
    induction t with
    | nil => rfl
    | cons b bs ih =>
      simp [as_destroy, ownedEntries, destroy_chain_freed, ih,
        List.map_append]
  refine ⟨hmain, ?_⟩
  rw [hmain, countPid, List.length_map]

/-- `getD` with default `[]` commutes with mapping a function over every
bucket. -/
lemma getD_map_map (g : hpt_entry → hpt_entry) (t : Table) (i : Nat) :
    (t.map (List.map g)).getD i [] = (t.getD i []).map g := by
  simp only [List.getD_eq_getElem?_getD, List.getElem?_map]
  cases t[i]? <;> rfl

/-- C9: CONFIRMED.  `as_complete_load(A)` clears the temporary-write
override bit (SWRITE, bit 0) on every entry owned by `A` and nothing else:
an entry at any position is mapped to itself when its owner differs, and
otherwise only its `entry_lo` changes, with bit 0 cleared and all other
32-bit positions preserved; applying `as_complete_load(A)` a second time
leaves the whole table exactly as the first call left it. -/
theorem complete_load_clears_swrite (t : Table) (pid i k : Nat)
    (e : hpt_entry) (h : (t.getD i []).get? k = some e) :
    as_complete_load (as_complete_load t pid) pid = as_complete_load t pid ∧
    ((as_complete_load t pid).getD i []).get? k =
      some (if e.pid = pid then
          ⟨e.pid, e.entry_hi, Nat.land e.entry_lo NOT_SWRITE⟩
        else e) ∧
    Nat.testBit (Nat.land e.entry_lo NOT_SWRITE) 0 = false ∧
    (∀ j, 0 < j → j < 32 →
      Nat.testBit (Nat.land e.entry_lo NOT_SWRITE) j =
        Nat.testBit e.entry_lo j) := by
  refine ⟨?_, ?_, ?_, ?_⟩
  · simp only [as_complete_load, List.map_map]
    refine congrArg (fun g => List.map g t) (funext fun b => ?_)
    simp only [Function.comp, List.map_map]
    refine congrArg (fun g => List.map g b) (funext fun x => ?_)
    simp only [Function.comp]
    by_cases hx : x.pid = pid
    · simp only [hx, if_pos]
      show hpt_entry.mk pid x.entry_hi ((x.entry_lo &&& NOT_SWRITE) &&& NOT_SWRITE) =
        hpt_entry.mk pid x.entry_hi (x.entry_lo &&& NOT_SWRITE)
      rw [Nat.land_assoc, Nat.and_self]
    · simp [hx]
  · simp only [as_complete_load, getD_map_map, List.get?_eq_getElem?,
      List.getElem?_map]
    simp only [List.get?_eq_getElem?] at h
    rw [h]
    rfl
  · show (e.entry_lo &&& NOT_SWRITE).testBit 0 = false
    rw [Nat.testBit_land]
    have : Nat.testBit NOT_SWRITE 0 = false := by decide
    rw [this, Bool.and_false]
  · intro j hj0 hj32
    show (e.entry_lo &&& NOT_SWRITE).testBit j = e.entry_lo.testBit j
    rw [Nat.testBit_land]
    have hb : ∀ jj, jj < 32 → 0 < jj → Nat.testBit NOT_SWRITE jj = true := by
      decide
    rw [hb j hj32 hj0, Bool.and_true]

/-- Witness for C9's theorem on a concrete one-entry table. -/
theorem complete_load_clears_swrite_witness :
    ((tbl_state_a.getD 0 []).get? 0 = some (⟨5, 0x1000, 11⟩ : hpt_entry)) ∧
    (as_complete_load (as_complete_load tbl_state_a 5) 5 =
        as_complete_load tbl_state_a 5 ∧
      ((as_complete_load tbl_state_a 5).getD 0 []).get? 0 =
        some (if (5 : Nat) = 5 then
            (⟨5, 0x1000, Nat.land 11 NOT_SWRITE⟩ : hpt_entry)
          else ⟨5, 0x1000, 11⟩) ∧
      Nat.testBit (Nat.land 11 NOT_SWRITE) 0 = false ∧
      (∀ j, 0 < j → j < 32 →
        Nat.testBit (Nat.land 11 NOT_SWRITE) j = Nat.testBit 11 j)) :=
  ⟨rfl, complete_load_clears_swrite tbl_state_a 5 0 0 ⟨5, 0x1000, 11⟩ rfl⟩

/-- A table with a successful lookup is nonempty. -/
lemma find_nonempty (t : Table) (pid v : Nat) (w : hpt_entry)
    (h : find t pid v = some w) : 0 < t.length := by
  cases t with
  | nil =>
    have hnil : find ([] : Table) pid v = none := rfl
    rw [hnil] at h
    cases h
  | cons b bs => simp

/-- An insertion (of any key, for any space) never changes a successful
lookup result: the new node is appended at the tail of its bucket, behind
any existing first match. -/
lemma find_after_insert (t : Table) (pid v p2 hi2 lo2 : Nat) (w : hpt_entry)
    (h : find t pid v = some w) :
    find (apply_op t (TableOp.opInsert p2 hi2 lo2)) pid v = some w := by
  have hlen : 0 < t.length := find_nonempty t pid v w h
  have happ : apply_op t (TableOp.opInsert p2 hi2 lo2) =
      t.set (hpt_hash p2 (Nat.land hi2 PAGE_FRAME) t.length)
        (t.getD (hpt_hash p2 (Nat.land hi2 PAGE_FRAME) t.length) []
          ++ [⟨p2, Nat.land hi2 PAGE_FRAME, lo2⟩]) := rfl
  rw [happ, find, List.length_set]
  rw [find] at h
  by_cases hji : hpt_hash p2 (Nat.land hi2 PAGE_FRAME) t.length =
      hpt_hash pid v t.length
  · rw [hji]
    have hidx : hpt_hash pid v t.length < t.length := Nat.mod_lt _ hlen
    have hb : (t.set (hpt_hash pid v t.length)
          (t.getD (hpt_hash pid v t.length) []
            ++ [⟨p2, Nat.land hi2 PAGE_FRAME, lo2⟩])).getD
            (hpt_hash pid v t.length) [] =
        t.getD (hpt_hash pid v t.length) []
          ++ [⟨p2, Nat.land hi2 PAGE_FRAME, lo2⟩] := by
      simp [List.getD_eq_getElem?_getD, List.getElem?_set_self hidx]
    rw [hb, List.find?_append, h]
    rfl
  · have hgd : (t.set (hpt_hash p2 (Nat.land hi2 PAGE_FRAME) t.length)
          (t.getD (hpt_hash p2 (Nat.land hi2 PAGE_FRAME) t.length) []
            ++ [⟨p2, Nat.land hi2 PAGE_FRAME, lo2⟩])).getD
            (hpt_hash pid v t.length) [] =
        t.getD (hpt_hash pid v t.length) [] := by
      simp [List.getD_eq_getElem?_getD, List.getElem?_set_ne hji]
    rw [hgd]
    exact h

/-- Mapping a function over a chain preserves a successful `find?` result
when the function neither changes the predicate's verdict on any entry nor
the entries the predicate accepts. -/
lemma find?_map_of_fix (p : hpt_entry → Bool) (g : hpt_entry → hpt_entry)
    (w : hpt_entry) (hg : ∀ e, p (g e) = p e)
    (hfix : ∀ e, p e = true → g e = e) :
    ∀ b : List hpt_entry, b.find? p = some w → (b.map g).find? p = some w := by
  intro b
  induction b with
  | nil => intro h; cases h
  | cons e rest ih =>
    intro h
    cases hpe : p e with
    | true =>
      rw [List.find?_cons_of_pos _ hpe] at h
      injection h with h
      rw [List.map_cons, List.find?_cons_of_pos _ (by rw [hg]; exact hpe),
        hfix e hpe, h]
    | false =>
      rw [List.find?_cons_of_neg _ (by simp [hpe])] at h
      rw [List.map_cons, List.find?_cons_of_neg _ (by simp [hg, hpe])]
      exact ih h

/-- Completing the load of a DIFFERENT space never changes a successful
lookup: it preserves every entry's owner and tag, and rewrites only entries
of that other space. -/
lemma find_after_complete_load (t : Table) (pid v q : Nat) (w : hpt_entry)
    (hq : q ≠ pid) (h : find t pid v = some w) :
    find (as_complete_load t q) pid v = some w := by
  rw [find] at h ⊢
  rw [as_complete_load, List.length_map, getD_map_map]
  apply find?_map_of_fix _ _ w ?_ ?_ _ h
  · intro e
    by_cases he : e.pid = q <;> simp [he]
  · intro e hpe
    have hep : e.pid = pid := by
      have := (Bool.and_eq_true _ _).mp hpe
      exact beq_iff_eq.mp this.1
    rw [if_neg (by rw [hep]; exact Ne.symm hq)]

/-- `as_destroy` keeps the bucket count. -/
lemma as_destroy_length (q : Nat) : ∀ t : Table,
    (as_destroy q t).1.length = t.length
  | [] => rfl
  | b :: bs => by simp [as_destroy, as_destroy_length q bs]

/-- Bucket `i` after `as_destroy` is bucket `i` after its chain walk. -/
lemma as_destroy_getD (q : Nat) : ∀ (t : Table) (i : Nat),
    (as_destroy q t).1.getD i [] = (destroy_chain q (t.getD i [])).1
  | [], i => by cases i <;> rfl
  | b :: bs, 0 => rfl
  | b :: bs, i + 1 => by
    simp only [as_destroy, List.getD_cons_succ]
    exact as_destroy_getD q bs i

/-- The surviving entries of one bucket's walk in `as_destroy`: exactly the
entries of other spaces, in chain order. -/
lemma destroy_chain_kept (q : Nat) (b : List hpt_entry) :
    (destroy_chain q b).1 = b.filter (fun e => !(e.pid == q)) := by
  induction b with
  | nil => rfl
  | cons e rest ih =>
    by_cases he : e.pid = q
    · simp [destroy_chain, he, ih]
    · simp [destroy_chain, he, ih]

/-- Filtering out only entries the predicate rejects preserves `find?`. -/
lemma find?_filter_keep (p keep : hpt_entry → Bool)
    (hk : ∀ e, p e = true → keep e = true) :
    ∀ b : List hpt_entry, (b.filter keep).find? p = b.find? p := by
  intro b
  induction b with
  | nil => rfl
  | cons e rest ih =>
    cases hke : keep e with
    | true =>
      rw [List.filter_cons_of_pos hke]
      cases hpe : p e with
      | true => rw [List.find?_cons_of_pos _ hpe, List.find?_cons_of_pos _ hpe]
      | false =>
        rw [List.find?_cons_of_neg _ (by simp [hpe]),
          List.find?_cons_of_neg _ (by simp [hpe]), ih]
    | false =>
      rw [List.filter_cons_of_neg (by simp [hke])]
      have hpe : p e = false := by
        cases hpe : p e with
        | false => rfl
        | true => rw [hk e hpe] at hke; cases hke
      rw [ih, List.find?_cons_of_neg _ (by simp [hpe])]

/-- Destroying a DIFFERENT space never changes a successful lookup: it
unlinks only entries of that space, which the lookup predicate rejects. -/
lemma find_after_destroy (t : Table) (pid v q : Nat) (w : hpt_entry)
    (hq : q ≠ pid) (h : find t pid v = some w) :
    find (as_destroy q t).1 pid v = some w := by
  rw [find] at h ⊢
  rw [as_destroy_length, as_destroy_getD, destroy_chain_kept,
    find?_filter_keep]
  · exact h
  · intro e hpe
    have hep : e.pid = pid := by
      have := (Bool.and_eq_true _ _).mp hpe
      exact beq_iff_eq.mp this.1
    simp [hep, Ne.symm hq]

/-- One operation that neither removes nor mutates `pid`'s entries
preserves a successful lookup for `pid`. -/
lemma find_after_op (t : Table) (pid v : Nat) (w : hpt_entry) (op : TableOp)
    (hop : leaves_owner pid op) (h : find t pid v = some w) :
    find (apply_op t op) pid v = some w := by
  cases op with
  | opInsert p hi lo => exact find_after_insert t pid v p hi lo w h
  | opCompleteLoad q => exact find_after_complete_load t pid v q w hop h
  | opDestroy q => exact find_after_destroy t pid v q w hop h

/-- A successful lookup persists across any sequence of operations that
neither remove nor mutate the found entry. -/
lemma find_after_ops (pid v : Nat) (w : hpt_entry) :
    ∀ (ops : List TableOp) (t : Table),
      (∀ op ∈ ops, leaves_owner pid op) → find t pid v = some w →
      find (ops.foldl apply_op t) pid v = some w := by
  intro ops
  induction ops with
  | nil => intro t _ h; exact h
  | cons op rest ih =>
    intro t hops h
    rw [List.foldl_cons]
    exact ih (apply_op t op)
      (fun o ho => hops o (List.mem_cons_of_mem _ ho))
      (find_after_op t pid v w op (hops op (List.mem_cons_self _ _)) h)

/-- C8 amended: on a table with no live matching `(A, v)` entry (a prior
`find` returns none) and a page-aligned tag, a successful insert makes the
immediately following `find` return precisely the inserted entry — owner
`A`, tag `v`, state `s` — and `find` keeps returning that entry across any
further sequence of table operations that neither remove nor mutate it:
any insertion (including one that shadows the key from behind), and
load-completion or destruction of other address spaces. -/
theorem insert_then_find (t : Table) (pid v s : Nat)
    (hlen : 0 < t.length) (hnone : find t pid v = none)
    (halign : Nat.land v PAGE_FRAME = v) :
    insert_page_table_entry true t pid v s =
      some (t.set (hpt_hash pid v t.length)
              (t.getD (hpt_hash pid v t.length) [] ++ [⟨pid, v, s⟩]), true) ∧
    find (t.set (hpt_hash pid v t.length)
            (t.getD (hpt_hash pid v t.length) [] ++ [⟨pid, v, s⟩])) pid v =
      some ⟨pid, v, s⟩ ∧
    ∀ ops : List TableOp, (∀ op ∈ ops, leaves_owner pid op) →
      find (ops.foldl apply_op
          (t.set (hpt_hash pid v t.length)
            (t.getD (hpt_hash pid v t.length) [] ++ [⟨pid, v, s⟩]))) pid v =
        some ⟨pid, v, s⟩ := by
  have hidx : hpt_hash pid v t.length < t.length :=
    Nat.mod_lt _ hlen
  have h2 : find (t.set (hpt_hash pid v t.length)
      (t.getD (hpt_hash pid v t.length) [] ++ [⟨pid, v, s⟩])) pid v =
      some ⟨pid, v, s⟩ := by
    rw [find] at hnone ⊢
    rw [List.length_set]
    have hb : (t.set (hpt_hash pid v t.length)
          (t.getD (hpt_hash pid v t.length) [] ++ [⟨pid, v, s⟩])).getD
            (hpt_hash pid v t.length) [] =
        t.getD (hpt_hash pid v t.length) [] ++ [⟨pid, v, s⟩] := by
      simp [List.getD_eq_getElem?_getD, List.getElem?_set_self hidx]
    rw [hb, List.find?_append, hnone, Option.none_or]
    simp [List.find?, halign]
  refine ⟨?_, h2, fun ops hops => find_after_ops pid v ⟨pid, v, s⟩ ops _ hops h2⟩
  rw [insert_eq_append, halign]

/-- Witness for C8's amended theorem: inserting `(5, 0x1000, 77)` into an
empty four-bucket table, then finding it (and keeping it found). -/
theorem insert_then_find_witness :
    (0 < empty4.length) ∧ (find empty4 5 0x1000 = none) ∧
    (Nat.land 0x1000 PAGE_FRAME = 0x1000) ∧
    (insert_page_table_entry true empty4 5 0x1000 77 =
      some (empty4.set (hpt_hash 5 0x1000 empty4.length)
              (empty4.getD (hpt_hash 5 0x1000 empty4.length) []
                ++ [⟨5, 0x1000, 77⟩]), true) ∧
     find (empty4.set (hpt_hash 5 0x1000 empty4.length)
             (empty4.getD (hpt_hash 5 0x1000 empty4.length) []
               ++ [⟨5, 0x1000, 77⟩])) 5 0x1000 =
       some ⟨5, 0x1000, 77⟩ ∧
     ∀ ops : List TableOp, (∀ op ∈ ops, leaves_owner 5 op) →
       find (ops.foldl apply_op
           (empty4.set (hpt_hash 5 0x1000 empty4.length)
             (empty4.getD (hpt_hash 5 0x1000 empty4.length) []
               ++ [⟨5, 0x1000, 77⟩]))) 5 0x1000 =
         some ⟨5, 0x1000, 77⟩) :=
  ⟨by decide, by decide, by decide,
   insert_then_find empty4 5 0x1000 77 (by decide) (by decide) (by decide)⟩

/-- Replacing one element of a list changes the sum of a mapped function by
exactly the difference of the images (stated addition-only for `Nat`). -/
lemma sum_map_set {α : Type} (f : α → Nat) (d : α) :
    ∀ (l : List α) (i : Nat) (x : α), i < l.length →
      ((l.set i x).map f).sum + f (l.getD i d) = (l.map f).sum + f x := by
  intro l
  induction l with
  | nil => intro i x h; cases h
  | cons a as ih =>
    intro i x h
    cases i with
    | zero => simp [List.set]; omega
    | succ n =>
      have hn : n < as.length := by simpa using h
      have := ih n x hn
      simp only [List.set, List.map_cons, List.sum_cons, List.getD,
        List.get?_eq_getElem?, List.getElem?_cons_succ] at *
      omega

/-- A successful insertion raises the `(q, v)` multiplicity by exactly 1
when the inserted key is `(q, v)`, and leaves it unchanged otherwise. -/
lemma countKey_insert (t : Table) (pid entry_hi entry_lo q v : Nat)
    (hlen : 0 < t.length) :
    countKey (t.set (hpt_hash pid (Nat.land entry_hi PAGE_FRAME) t.length)
        (t.getD (hpt_hash pid (Nat.land entry_hi PAGE_FRAME) t.length) []
          ++ [⟨pid, Nat.land entry_hi PAGE_FRAME, entry_lo⟩])) q v =
      countKey t q v +
        (if q = pid ∧ Nat.land entry_hi PAGE_FRAME = v then 1 else 0) := by
  have hidx : hpt_hash pid (Nat.land entry_hi PAGE_FRAME) t.length < t.length :=
    Nat.mod_lt _ hlen
  have h := sum_map_set
    (fun b => b.countP (fun e => e.pid == q && e.entry_hi == v)) [] t
    (hpt_hash pid (Nat.land entry_hi PAGE_FRAME) t.length)
    (t.getD (hpt_hash pid (Nat.land entry_hi PAGE_FRAME) t.length) []
      ++ [⟨pid, Nat.land entry_hi PAGE_FRAME, entry_lo⟩]) hidx
  simp only [List.countP_append] at h
  have hone : List.countP (fun e => e.pid == q && e.entry_hi == v)
      [(⟨pid, Nat.land entry_hi PAGE_FRAME, entry_lo⟩ : hpt_entry)] =
      (if q = pid ∧ Nat.land entry_hi PAGE_FRAME = v then 1 else 0) := by
    by_cases hq : q = pid
    · by_cases hv : Nat.land entry_hi PAGE_FRAME = v
      · simp [List.countP_cons, hq, hv]
      · rw [if_neg (fun hc => hv hc.2)]
        simp [List.countP_cons, hv]
    · rw [if_neg (fun hc => hq hc.1)]
      have hpq : (pid == q) = false := beq_eq_false_iff_ne.mpr (Ne.symm hq)
      simp [List.countP_cons, hpq]
  rw [hone] at h
  simp only [countKey]
  omega

/-- Running the region-definition loop with all allocations succeeding
always returns success, preserves the bucket count, and raises the `(q, v)`
multiplicity by the number of pages in the batch whose stored tag is `v`
(when `q` is the defining space; other spaces' counts never change). -/
lemma define_loop_countKey (pid perms q v : Nat) :
    ∀ (pages : List Nat) (k : Nat) (t : Table), 0 < t.length →
      ∃ t', define_loop km_all pid perms pages k t = some (0, t') ∧
        t'.length = t.length ∧
        countKey t' q v = countKey t q v +
          (if q = pid then
            (pages.map
              (fun s => Nat.land ((s <<< FLAG_OFFSET) % U32) PAGE_FRAME)).count v
          else 0) := by
  intro pages
  induction pages with
  | nil => intro k t hlen; exact ⟨t, rfl, rfl, by simp⟩
  | cons s rest ih =>
    intro k t hlen
    have hstep : define_loop km_all pid perms (s :: rest) k t =
        define_loop km_all pid perms rest (k + 1)
          (t.set (hpt_hash pid
              (Nat.land ((s <<< FLAG_OFFSET) % U32) PAGE_FRAME) t.length)
            (t.getD (hpt_hash pid
                (Nat.land ((s <<< FLAG_OFFSET) % U32) PAGE_FRAME) t.length) []
              ++ [⟨pid, Nat.land ((s <<< FLAG_OFFSET) % U32) PAGE_FRAME,
                    make_entry_lo perms⟩])) := rfl
    have hlen' : 0 < (t.set (hpt_hash pid
        (Nat.land ((s <<< FLAG_OFFSET) % U32) PAGE_FRAME) t.length)
        (t.getD (hpt_hash pid
            (Nat.land ((s <<< FLAG_OFFSET) % U32) PAGE_FRAME) t.length) []
          ++ [⟨pid, Nat.land ((s <<< FLAG_OFFSET) % U32) PAGE_FRAME,
                make_entry_lo perms⟩])).length := by
      rw [List.length_set]; exact hlen
    obtain ⟨t', h1, h2, h3⟩ := ih (k + 1) _ hlen'
    refine ⟨t', by rw [hstep]; exact h1, by rw [h2, List.length_set], ?_⟩
    rw [h3, countKey_insert t pid ((s <<< FLAG_OFFSET) % U32)
      (make_entry_lo perms) q v hlen]
    by_cases hq : q = pid
    · by_cases hv : Nat.land ((s <<< FLAG_OFFSET) % U32) PAGE_FRAME = v
      · simp [hq, hv, List.count_cons]
        omega
      · simp [hq, hv, List.count_cons]
    · simp [hq]

/-- The stored tag of page `s` is `s * 4096` whenever `s < 2^20` (the tag
fits in 32 bits, so the `% 2^32` and the `& PAGE_FRAME` are identities). -/
lemma page_tag_eq (s : Nat) (hs : s < 2 ^ 20) :
    Nat.land ((s <<< FLAG_OFFSET) % U32) PAGE_FRAME = s * 4096 := by
  have h1 : s <<< FLAG_OFFSET = s * 4096 := by
    rw [Nat.shiftLeft_eq]; norm_num [FLAG_OFFSET]
  have h2 : s * 4096 < U32 := by
    have hu : U32 = 4294967296 := by norm_num [U32]
    omega
  rw [h1, Nat.mod_eq_of_lt h2, ← h1]
  apply Nat.eq_of_testBit_eq
  intro j
  show ((s <<< FLAG_OFFSET) &&& PAGE_FRAME).testBit j =
    (s <<< FLAG_OFFSET).testBit j
  rw [Nat.testBit_land]
  cases hx : (s <<< FLAG_OFFSET).testBit j
  · simp
  · suffices h : PAGE_FRAME.testBit j = true by simp [h]
    rw [Nat.testBit_shiftLeft] at hx
    have h12 : FLAG_OFFSET ≤ j := by
      by_contra hc
      simp [hc] at hx
    have hsb : s.testBit (j - FLAG_OFFSET) = true := by
      simp [h12] at hx; exact hx
    have hj32 : j < 32 := by
      by_contra hc
      have h20 : 20 ≤ j - FLAG_OFFSET := by
        simp only [FLAG_OFFSET] at h12 ⊢; omega
      have : s.testBit (j - FLAG_OFFSET) = false :=
        Nat.testBit_lt_two_pow
          (lt_of_lt_of_le hs (Nat.pow_le_pow_right (by norm_num) h20))
      rw [this] at hsb; cases hsb
    have hPF : PAGE_FRAME = (2 ^ 20 - 1) <<< 12 := by
      rw [Nat.shiftLeft_eq]; norm_num [PAGE_FRAME]
    rw [hPF, Nat.testBit_shiftLeft, Nat.testBit_two_pow_sub_one]
    have h12' : (12 : Nat) ≤ j := by simpa [FLAG_OFFSET] using h12
    simp only [FLAG_OFFSET] at hj32 ⊢
    have : j - 12 < 20 := by omega
    simp [h12', this]

/-- Every page index whose tag `define_memory` can insert is below `2^20`:
the loop's upper bound is a 32-bit value divided by the page size. -/
lemma page_index_lt (addr memsize s : Nat)
    (hmem : s ∈ List.range' (addr / PAGE_SIZE)
      (((addr + memsize + PAGE_SIZE - 1) % U32) / PAGE_SIZE
        - addr / PAGE_SIZE)) : s < 2 ^ 20 := by
  have h := List.mem_range'_1.mp hmem
  have htop : ((addr + memsize + PAGE_SIZE - 1) % U32) / PAGE_SIZE < 2 ^ 20 := by
    have hlt : (addr + memsize + PAGE_SIZE - 1) % U32 < U32 :=
      Nat.mod_lt _ (by norm_num [U32])
    have hdiv : (addr + memsize + PAGE_SIZE - 1) % U32 / PAGE_SIZE
        ≤ (U32 - 1) / PAGE_SIZE :=
      Nat.div_le_div_right (by omega)
    have heq : (U32 - 1) / PAGE_SIZE = 1048575 := by norm_num [U32, PAGE_SIZE]
    omega
  omega

/-- The tag list of one region definition has no duplicates. -/
lemma pageTags_nodup (addr memsize : Nat) :
    (pageTags addr memsize).Nodup := by
  apply List.Nodup.map_on
  · intro a ha b hb hab
    have ha20 := page_index_lt addr memsize a ha
    have hb20 := page_index_lt addr memsize b hb
    rw [page_tag_eq a ha20, page_tag_eq b hb20] at hab
    omega
  · exact List.nodup_range' _ _

/-- C7 amended: insertion never de-duplicates, so region definition adds
entries unconditionally; but a SINGLE successful region definition raises
the `(q, v)` multiplicity by exactly 1 when `q` is the defining space and
`v` is one of the defined page tags, and leaves it unchanged otherwise.
Hence at-most-one-entry-per-key holds only across sequences of region
definitions whose page batches never repeat a tag for the same space — the
counterexample shows a repeated definition reaching multiplicity 2. -/
theorem define_memory_multiplicity (t : Table)
    (pid addr memsize perms q v : Nat) (hlen : 0 < t.length)
    (hrange : (addr + memsize) % U32 ≤ MIPS_KSEG0) :
    ∃ t', define_memory km_all t pid addr memsize perms = some (0, t') ∧
      countKey t' q v = countKey t q v +
        (if q = pid ∧ v ∈ pageTags addr memsize then 1 else 0) := by
  obtain ⟨t', h1, _, h3⟩ := define_loop_countKey pid perms q v
    (List.range' (addr / PAGE_SIZE)
      (((addr + memsize + PAGE_SIZE - 1) % U32) / PAGE_SIZE
        - addr / PAGE_SIZE)) 0 t hlen
  refine ⟨t', ?_, ?_⟩
  · rw [define_memory, if_neg (by omega)]
    exact h1
  · rw [h3]
    have hcnt : (pageTags addr memsize).count v =
        (if v ∈ pageTags addr memsize then 1 else 0) := by
      by_cases hm : v ∈ pageTags addr memsize
      · rw [if_pos hm]
        exact List.count_eq_one_of_mem (pageTags_nodup addr memsize) hm
      · rw [if_neg hm]
        exact List.count_eq_zero.mpr hm
    have hpt : (List.range' (addr / PAGE_SIZE)
        (((addr + memsize + PAGE_SIZE - 1) % U32) / PAGE_SIZE
          - addr / PAGE_SIZE)).map
        (fun s => Nat.land ((s <<< FLAG_OFFSET) % U32) PAGE_FRAME) =
        pageTags addr memsize := rfl
    rw [hpt, hcnt]
    by_cases hq : q = pid
    · by_cases hm : v ∈ pageTags addr memsize
      · simp [hq, hm]
      · simp [hq, hm]
    · simp [hq]

/-- Witness for C7's amended theorem: one one-page region definition on an
empty table takes the `(5, 0x1000)` multiplicity from 0 to 1. -/
theorem define_memory_multiplicity_witness :
    (0 < empty4.length) ∧ ((0x1000 + 0x1000) % U32 ≤ MIPS_KSEG0) ∧
    (∃ t', define_memory km_all empty4 5 0x1000 0x1000 8 = some (0, t') ∧
      countKey t' 5 0x1000 = countKey empty4 5 0x1000 +
        (if 5 = 5 ∧ 0x1000 ∈ pageTags 0x1000 0x1000 then 1 else 0)) :=
  ⟨by decide, by decide,
   define_memory_multiplicity empty4 5 0x1000 0x1000 8 5 0x1000
     (by decide) (by decide)⟩
